import Mathlib

/-!
Shallow embedding of `src/scripts/core/EventSystem.js` (class `EventSystem`),
an in-process publish/subscribe event bus, together with proofs settling the
frozen claims about it.

Modelling conventions:
- JS numbers that hold counters/sizes are `Nat`; listener priorities are `Int`
  (the code subtracts them in a sort comparator and negative priorities occur).
- `generateListenerId` / `generateEventId` produce opaque unique tokens
  (timestamp + random suffix); they are modelled as monotonic counters
  (`nextListenerId`, `nextEventId`), which preserves exactly the property the
  code relies on: uniqueness, and hence registration order.
- `performance.now()` timestamps are modelled by a monotonic `clock`;
  `averageProcessingTime` depends on wall-clock durations and is not modelled
  (no claim mentions it).
- Listener callbacks are arbitrary JS closures in the source.  They are
  modelled syntactically as a list of `CAction` commands interpreted against
  the bus state: logging into an external array (as test callbacks do),
  returning a value, throwing, unsubscribing a listener, and non-immediate
  publishing (including the data-countdown republish used by the
  self-publishing-drain scenario).  The `onEventDropped` / `onEventProcessed`
  hooks are modelled as pure observers (`ObsAction`), which is what every
  claim exercises and keeps the interpreter structurally recursive.
- The `eventQueue` drain loop (`processEvents`) can be made non-terminating by
  a listener that always republishes (a hazard the code documents implicitly);
  it is embedded with explicit fuel, returning a flag telling whether the loop
  ran to completion within the fuel.
- `processEvent` iterates `this.listeners.get(event.type)` — the *live* array
  (`for...of` over the array the registry still references, index-based).  The
  embedding re-reads the listener list from the state at each index step; this
  is equivalent to the source's aliased-array iteration for every mutation the
  command language can perform (`unsubscribe` splices the same array in place,
  and publishing only touches the queue).
- The class declares `removeAllListeners` twice (lines 384 and 395).  In
  JavaScript the later zero-parameter definition replaces the earlier typed
  one, so every call — with or without an argument — runs the second body and
  clears all listeners.  The embedding models the effective (shadowing)
  definition, and separately the dead earlier body for reference.
- `getEventHistory` returns the internal `eventHistory` array itself when
  neither a (truthy) type filter nor a (truthy) limit is supplied; with either
  argument, `filter`/`slice` allocate a fresh array.  The embedding returns
  the contents together with a flag recording whether the returned array is
  the internal one, and a companion definition interprets a `push` on the
  returned array against the bus.
-/

namespace EventBus

/-- Observer actions: the modelled behavior of the `onEventDropped` and
`onEventProcessed` hook callbacks (they observe the event, e.g. by pushing
into an external test array; they do not re-enter the bus). -/
inductive ObsAction where
  | log (tag : Nat)
  | logEvent
deriving DecidableEq

/-- Commands a listener callback can perform, interpreted against the bus
state.  `log` models a test callback pushing a tag into an external array;
`logEvent` pushes the received event's id; `ret` models `return v`;
`raiseErr` models `throw`; `unsub` models `this.unsubscribe(type, id)`;
`publishQ` models a non-immediate `this.publish(type, data)`;
`publishDec` models the countdown republisher
`(data) => { if (data > 0) bus.publish(type, data - 1); }`. -/
inductive CAction where
  | log (tag : Nat)
  | logEvent
  | ret (v : Nat)
  | raiseErr
  | unsub (eventType : String) (lid : Nat)
  | publishQ (eventType : String) (data : Option Nat)
  | publishDec (eventType : String)
deriving DecidableEq

/-- A listener callback is a command list, executed in order until a `ret` or
`raiseErr` terminates it. -/
abbrev Callback := List CAction

/-- A registered listener: `{ callback, priority, id }` (EventSystem.js:69-73). -/
structure Listener where
  callback : Callback
  priority : Int
  id : Nat
deriving DecidableEq

/-- An event: `{ type, data, timestamp, id }` (EventSystem.js:133-138). -/
structure Event where
  type : String
  data : Option Nat
  timestamp : Nat
  id : Nat
deriving DecidableEq

/-- The bus state: the fields of the `EventSystem` class (constructor,
EventSystem.js:7-30), plus the id/clock counters modelling the token
generators, and `calls` — the external array modelled callbacks append to. -/
structure EventSystem where
  isInitialized : Bool
  listeners : List (String × List Listener)
  eventQueue : List Event
  maxQueueSize : Nat
  processingEvents : Bool
  eventHistory : List Event
  maxHistorySize : Nat
  eventsProcessed : Nat
  eventsQueued : Nat
  eventsDropped : Nat
  eventTypes : List String
  onEventProcessed : Option (List ObsAction)
  onEventDropped : Option (List ObsAction)
  nextListenerId : Nat
  nextEventId : Nat
  clock : Nat
  calls : List Nat
deriving DecidableEq

/-- Configuration object accepted by `initialize(config)`. -/
structure Config where
  maxQueueSize : Option Nat
  maxHistorySize : Option Nat

/-- `Map.get` on the listener registry. -/
def findLs : List (String × List Listener) → String → Option (List Listener)
  | [], _ => none
  | (k, v) :: rest, t => if k = t then some v else findLs rest t

/-- `Map.set` on the listener registry (appends a new entry at the end when
the key is absent, as a JS `Map` does). -/
def updateLs : List (String × List Listener) → String → List Listener → List (String × List Listener)
  | [], t, l => [(t, l)]
  | (k, v) :: rest, t, l => if k = t then (k, l) :: rest else (k, v) :: updateLs rest t l

/-- `Map.delete` on the listener registry. -/
def eraseLs : List (String × List Listener) → String → List (String × List Listener)
  | [], _ => []
  | (k, v) :: rest, t => if k = t then rest else (k, v) :: eraseLs rest t

/-- The listener array for a type, `[]` when the type has no entry. -/
def getLs (s : EventSystem) (t : String) : List Listener :=
  (findLs s.listeners t).getD []

/-- Insert into a priority-descending list, after all equal-priority entries.
Building block of the stable sort below. -/
def ordInsert (a : Listener) : List Listener → List Listener
  | [] => [a]
  | b :: t => if b.priority ≤ a.priority then a :: b :: t else b :: ordInsert a t

/-- Model of `listeners.sort((a, b) => b.priority - a.priority)`
(EventSystem.js:79).  `Array.prototype.sort` is stable (ES2019), and a stable
sort's output is uniquely determined by the comparator, so this stable
insertion sort computes exactly the array the source produces. -/
def insSortDesc : List Listener → List Listener
  | [] => []
  | a :: t => ordInsert a (insSortDesc t)

/-- The freshly constructed bus (constructor, EventSystem.js:7-30). -/
def newEventSystem : EventSystem where
  isInitialized := false
  listeners := []
  eventQueue := []
  maxQueueSize := 1000
  processingEvents := false
  eventHistory := []
  maxHistorySize := 100
  eventsProcessed := 0
  eventsQueued := 0
  eventsDropped := 0
  eventTypes := []
  onEventProcessed := none
  onEventDropped := none
  nextListenerId := 0
  nextEventId := 0
  clock := 0
  calls := []

/-- JS `config.x || default`: `0` (and absence) falls back to the default. -/
def jsOr (v : Option Nat) (d : Nat) : Nat :=
  match v with
  | some n => if n = 0 then d else n
  | none => d

/-- `initialize(config)` (EventSystem.js:35-48): sets the sizes and the
initialized flag; returns `true`.  (The `catch` branch is unreachable in the
model: the body cannot throw.) -/
def initializeBus (s : EventSystem) (cfg : Config) : Bool × EventSystem :=
  (true, { s with
    maxQueueSize := jsOr cfg.maxQueueSize 1000
    maxHistorySize := jsOr cfg.maxHistorySize 100
    isInitialized := true })

/-- A bus constructed and then initialized with `cfg`. -/
def initState (cfg : Config) : EventSystem :=
  (initializeBus newEventSystem cfg).2

/-- `subscribe(eventType, callback, priority)` (EventSystem.js:53-83).
Returns the new listener id, or `none` for the `return false` paths.
(The `typeof callback !== 'function'` rejection has no counterpart here:
every `Callback` value models a function.) -/
def subscribe (s : EventSystem) (eventType : String) (callback : Callback) (priority : Int) : Option Nat × EventSystem :=
  if s.isInitialized = false then (none, s)
  else if eventType = "" then (none, s)
  else
    let x : Listener := { callback := callback, priority := priority, id := s.nextListenerId }
    let arr := insSortDesc (getLs s eventType ++ [x])
    let types := if (findLs s.listeners eventType).isSome then s.eventTypes else s.eventTypes ++ [eventType]
    (some x.id, { s with
      listeners := updateLs s.listeners eventType arr
      eventTypes := types
      nextListenerId := s.nextListenerId + 1 })

/-- Remove the first listener with the given id, `none` if absent
(the `findIndex` + `splice` path of `unsubscribe`). -/
def removeFirstById : List Listener → Nat → Option (List Listener)
  | [], _ => none
  | x :: t, lid => if x.id = lid then some t else (removeFirstById t lid).map (x :: ·)

/-- `unsubscribe(eventType, callbackOrId)` by id (EventSystem.js:88-117).
(Removal by callback identity is function-object identity in JS and is not
exercised by any claim.) -/
def unsubscribe (s : EventSystem) (eventType : String) (lid : Nat) : Bool × EventSystem :=
  match findLs s.listeners eventType with
  | none => (false, s)
  | some arr =>
    match removeFirstById arr lid with
    | none => (false, s)
    | some arr2 => (true, { s with listeners := updateLs s.listeners eventType arr2 })

/-- Run an observer hook callback on the event. -/
def runObs (s : EventSystem) (ev : Event) : List ObsAction → EventSystem
  | [] => s
  | ObsAction.log n :: rest => runObs { s with calls := s.calls ++ [n] } ev rest
  | ObsAction.logEvent :: rest => runObs { s with calls := s.calls ++ [ev.id] } ev rest

/-- `queueEvent(event)` (EventSystem.js:152-168): drop-newest backpressure.
The dropped counter is incremented and the drop hook fired before returning;
otherwise the event is appended and the queued counter incremented. -/
def queueEvent (s : EventSystem) (ev : Event) : EventSystem :=
  if s.maxQueueSize ≤ s.eventQueue.length then
    let s1 := { s with eventsDropped := s.eventsDropped + 1 }
    match s1.onEventDropped with
    | some obs => runObs s1 ev obs
    | none => s1
  else
    { s with eventQueue := s.eventQueue ++ [ev], eventsQueued := s.eventsQueued + 1 }

/-- `publish(eventType, data, false)` — the non-immediate path
(EventSystem.js:122-147 with `immediate = false`), factored out so that the
callback interpreter can call it without mutual recursion. -/
def publishQueued (s : EventSystem) (eventType : String) (data : Option Nat) : Option Nat × EventSystem :=
  if s.isInitialized = false then (none, s)
  else if eventType = "" then (none, s)
  else
    let ev : Event := { type := eventType, data := data, timestamp := s.clock, id := s.nextEventId }
    let s1 := { s with nextEventId := s.nextEventId + 1, clock := s.clock + 1 }
    (some ev.id, queueEvent s1 ev)

/-- Execute a listener callback on an event: returns the new bus state, the
callback's return value (`none` models `undefined`), and whether it threw. -/
def runCallback (s : EventSystem) (ev : Event) : Callback → EventSystem × Option Nat × Bool
  | [] => (s, none, false)
  | CAction.log n :: rest => runCallback { s with calls := s.calls ++ [n] } ev rest
  | CAction.logEvent :: rest => runCallback { s with calls := s.calls ++ [ev.id] } ev rest
  | CAction.ret v :: _ => (s, some v, false)
  | CAction.raiseErr :: _ => (s, none, true)
  | CAction.unsub t lid :: rest => runCallback (unsubscribe s t lid).2 ev rest
  | CAction.publishQ t d :: rest => runCallback (publishQueued s t d).2 ev rest
  | CAction.publishDec t :: rest =>
    match ev.data with
    | some (n + 1) => runCallback (publishQueued s t (some n)).2 ev rest
    | _ => runCallback s ev rest

/-- `history.push(event)` followed by the one-`shift` overflow check
(EventSystem.js:235-241), as a pure function of the history and capacity. -/
def histAppend (h : List Event) (ev : Event) (maxSize : Nat) : List Event :=
  if maxSize < (h ++ [ev]).length then (h ++ [ev]).drop 1 else h ++ [ev]

/-- `addToHistory(event)` (EventSystem.js:235-241). -/
def addToHistory (s : EventSystem) (ev : Event) : EventSystem :=
  { s with eventHistory := histAppend s.eventHistory ev s.maxHistorySize }

/-- The `for (const listener of listeners)` loop of `processEvent`
(EventSystem.js:211-220): index-based iteration over the live listener array,
re-read from the state each step (equivalent to the source's aliased array
for every mutation the command language can make).  `fuel` is the array
length at entry; since no command grows the array, the live index check makes
the loop stop at or before that many steps.  Accumulates the collected
results (non-`undefined` returns) and, as an observation, the ids of the
listeners invoked. -/
def dispatchLoop (ev : Event) : Nat → Nat → EventSystem → List Nat → List Nat → EventSystem × List Nat × List Nat
  | 0, _, s, res, inv => (s, res, inv)
  | fuel + 1, i, s, res, inv =>
    let arr := getLs s ev.type
    if h : i < arr.length then
      match runCallback s ev (arr[i].callback) with
      | (s1, rv, _raised) => dispatchLoop ev fuel (i + 1) s1 (res ++ rv.toList) (inv ++ [(arr[i]).id])
    else (s, res, inv)

/-- `processEvent(event)` (EventSystem.js:203-230).  Returns the state, the
collected results, and the invoked listener ids (observation).  Note the
early return when the type has no registry entry: the event is then *not*
recorded in history. -/
def processEvent (s : EventSystem) (ev : Event) : EventSystem × List Nat × List Nat :=
  match findLs s.listeners ev.type with
  | none => (s, [], [])
  | some arr =>
    match dispatchLoop ev arr.length 0 s [] [] with
    | (s1, res, inv) =>
      let s2 := addToHistory s1 ev
      let s3 :=
        match s2.onEventProcessed with
        | some obs => runObs s2 ev obs
        | none => s2
      (s3, res, inv)

/-- `publish(eventType, data, immediate)` (EventSystem.js:122-147).  Returns
the event id (`none` models `return false`), the new state, and — as an
observation — the listener ids invoked synchronously during the call
(`[]` on the queued path). -/
def publish (s : EventSystem) (eventType : String) (data : Option Nat) (immediate : Bool) : Option Nat × EventSystem × List Nat :=
  if s.isInitialized = false then (none, s, [])
  else if eventType = "" then (none, s, [])
  else if immediate then
    let ev : Event := { type := eventType, data := data, timestamp := s.clock, id := s.nextEventId }
    let s1 := { s with nextEventId := s.nextEventId + 1, clock := s.clock + 1 }
    match processEvent s1 ev with
    | (s2, _res, inv) => (some ev.id, s2, inv)
  else
    match publishQueued s eventType data with
    | (r, s1) => (r, s1, [])

/-- The `while (this.eventQueue.length > 0)` drain loop of `processEvents`
(EventSystem.js:183-187), with fuel.  Returns the state, the processed count,
and `true` iff the loop emptied the queue within the fuel. -/
def drainLoop : Nat → EventSystem → Nat → EventSystem × Nat × Bool
  | fuel, s, c =>
    match s.eventQueue with
    | [] => (s, c, true)
    | ev :: rest =>
      match fuel with
      | 0 => (s, c, false)
      | f + 1 => drainLoop f (processEvent { s with eventQueue := rest } ev).1 (c + 1)

/-- `processEvents()` (EventSystem.js:173-198): reentrancy guard, drain loop,
then the stats update.  When the fuel runs out (the JS loop would still be
running) the flag is `false` and the post-loop lines are not applied. -/
def processEventsF (fuel : Nat) (s : EventSystem) : EventSystem × Bool :=
  if s.processingEvents = true ∨ s.eventQueue = [] then (s, true)
  else
    match drainLoop fuel { s with processingEvents := true } 0 with
    | (s2, c, true) =>
      ({ s2 with eventsProcessed := s2.eventsProcessed + c, processingEvents := false }, true)
    | (s2, _, false) => (s2, false)

/-- `update(deltaTime)` (EventSystem.js:425-427). -/
def update (fuel : Nat) (s : EventSystem) (_deltaTime : Nat) : EventSystem × Bool :=
  processEventsF fuel s

/-- `shutdown()` (EventSystem.js:432-446): drain once more, then clear
everything and drop the initialized flag. -/
def shutdown (fuel : Nat) (s : EventSystem) : EventSystem × Bool :=
  match processEventsF fuel s with
  | (s1, ok) =>
    ({ s1 with
      listeners := []
      eventTypes := []
      eventQueue := []
      eventHistory := []
      isInitialized := false }, ok)

/-- `once(eventType, callback)` (EventSystem.js:371-379): subscribes (at the
default priority 0) a wrapper that first unsubscribes itself — the id the
closure captures is the one `subscribe` is about to assign — and then runs
the inner callback.  (The wrapper returns `undefined`; no modelled inner
callback of a claim uses `ret`, so the wrapper's discarding of the inner
return value is not observable here.) -/
def once (s : EventSystem) (eventType : String) (callback : Callback) : Option Nat × EventSystem :=
  subscribe s eventType (CAction.unsub eventType s.nextListenerId :: callback) 0

/-- The effective `removeAllListeners` (EventSystem.js:395-399).  The class
declares `removeAllListeners` twice; JavaScript keeps only this later
zero-parameter body, so every call — `removeAllListeners("A")` included —
clears the whole registry.  The parameter mirrors the call shape and is
ignored, exactly as the surviving JS method ignores extra arguments. -/
def removeAllListeners (s : EventSystem) (_eventType : Option String) : EventSystem :=
  { s with listeners := [], eventTypes := [] }

/-- The shadowed earlier `removeAllListeners(eventType)` body
(EventSystem.js:384-390) — dead code in the source, kept here to state what
the claim (and the method's own doc comment) expected. -/
def removeAllListenersShadowed (s : EventSystem) (eventType : String) : EventSystem :=
  if (findLs s.listeners eventType).isSome then
    { s with listeners := eraseLs s.listeners eventType, eventTypes := s.eventTypes.erase eventType }
  else s

/-- `clearHistory()` (EventSystem.js:263-266). -/
def clearHistory (s : EventSystem) : EventSystem :=
  { s with eventHistory := [] }

/-- `clearQueue()` (EventSystem.js:417-420). -/
def clearQueue (s : EventSystem) : EventSystem :=
  { s with eventQueue := [] }

/-- `resetPerformanceStats()` (EventSystem.js:296-303). -/
def resetPerformanceStats (s : EventSystem) : EventSystem :=
  { s with eventsProcessed := 0, eventsQueued := 0, eventsDropped := 0 }

/-- `setDroppedCallback(callback)` (EventSystem.js:329-331). -/
def setDroppedCallback (s : EventSystem) (obs : List ObsAction) : EventSystem :=
  { s with onEventDropped := some obs }

/-- `setProcessedCallback(callback)` (EventSystem.js:322-324). -/
def setProcessedCallback (s : EventSystem) (obs : List ObsAction) : EventSystem :=
  { s with onEventProcessed := some obs }

/-- JS truthiness of the optional `eventType` argument of `getEventHistory`
(`if (eventType)`): absent and the empty string are falsy. -/
def truthyStr : Option String → Bool
  | none => false
  | some t => t ≠ ""

/-- JS truthiness of the optional `limit` argument (`if (limit)`): absent and
`0` are falsy. -/
def truthyNat : Option Nat → Bool
  | none => false
  | some n => n ≠ 0

/-- `history.slice(-limit)`: the suffix of the most recent `n` entries. -/
def suffixN (l : List Event) (n : Nat) : List Event :=
  l.drop (l.length - n)

/-- `getEventHistory(eventType?, limit?)` (EventSystem.js:246-258).  The
`Bool` component records whether the returned array is the internal
`eventHistory` object itself: `filter` and `slice` each allocate a fresh
array, so the internal array escapes exactly when neither argument is
truthy. -/
def getEventHistory (s : EventSystem) (eventType : Option String) (limit : Option Nat) : Bool × List Event :=
  let h1 := if truthyStr eventType then s.eventHistory.filter (fun e => e.type == eventType.getD "") else s.eventHistory
  let h2 := if truthyNat limit then suffixN h1 (limit.getD 0) else h1
  (!(truthyStr eventType || truthyNat limit), h2)

/-- The bus's internal history after the caller mutates the array returned by
`getEventHistory` with `result.push(ev)`: visible to the bus exactly when the
returned array aliases the internal one. -/
def historyAfterResultPush (s : EventSystem) (eventType : Option String) (limit : Option Nat) (ev : Event) : List Event :=
  if (getEventHistory s eventType limit).1 then s.eventHistory ++ [ev] else s.eventHistory

/-- The public operations a collaborator can perform on an initialized bus
(the surface of §6 of the spec), used to quantify over operation sequences.
`update` and `shutdown` carry the drain fuel of the embedding. -/
inductive Op where
  | subscribe (eventType : String) (cb : Callback) (priority : Int)
  | unsubscribe (eventType : String) (lid : Nat)
  | publish (eventType : String) (data : Option Nat) (immediate : Bool)
  | update (fuel : Nat)
  | once (eventType : String) (cb : Callback)
  | removeAllListeners (eventType : Option String)
  | clearHistory
  | clearQueue
  | resetPerformanceStats
  | setDroppedCallback (obs : List ObsAction)
  | setProcessedCallback (obs : List ObsAction)
  | shutdown (fuel : Nat)

/-- Apply one operation to the bus state. -/
def applyOp (s : EventSystem) : Op → EventSystem
  | Op.subscribe t cb p => (subscribe s t cb p).2
  | Op.unsubscribe t lid => (unsubscribe s t lid).2
  | Op.publish t d imm => (publish s t d imm).2.1
  | Op.update fuel => (update fuel s 0).1
  | Op.once t cb => (once s t cb).2
  | Op.removeAllListeners t => removeAllListeners s t
  | Op.clearHistory => clearHistory s
  | Op.clearQueue => clearQueue s
  | Op.resetPerformanceStats => resetPerformanceStats s
  | Op.setDroppedCallback obs => setDroppedCallback s obs
  | Op.setProcessedCallback obs => setProcessedCallback s obs
  | Op.shutdown fuel => (shutdown fuel s).1

/-- Apply a sequence of operations from left to right. -/
def runOps (s : EventSystem) (ops : List Op) : EventSystem :=
  ops.foldl applyOp s

/-- Apply a sequence of `subscribe` calls (type, priority, callback). -/
def applySubs (s : EventSystem) (subs : List (String × Int × Callback)) : EventSystem :=
  subs.foldl (fun st x => (subscribe st x.1 x.2.2 x.2.1).2) s

/-- Default configuration: `initialize({})`. -/
def cfgNone : Config := { maxQueueSize := none, maxHistorySize := none }

/-- Bus for the `removeAllListeners` scenario: listeners registered for the
two distinct types `"A"` and `"B"`. -/
def c1S : EventSystem :=
  (subscribe (subscribe (initState cfgNone) "A" [] 0).2 "B" [] 5).2

/-- Bus for the backpressure scenario: `maxQueueSize = 3`, a logging drop
callback installed, and three events of type `"E"` already published. -/
def c2S3 : EventSystem :=
  runOps (setDroppedCallback (initState { maxQueueSize := some 3, maxHistorySize := none }) [ObsAction.logEvent])
    [Op.publish "E" none false, Op.publish "E" none false, Op.publish "E" none false]

/-- Bus for the priority-ordering scenario: listeners of priorities
`[5, 1, 5, -2]` registered on `"A"` in that order (listener ids 0, 1, 2, 3),
each logging a distinct tag. -/
def c3S : EventSystem :=
  applySubs (initState cfgNone)
    [("A", 5, [CAction.log 10]), ("A", 1, [CAction.log 11]),
     ("A", 5, [CAction.log 12]), ("A", -2, [CAction.log 13])]

/-- An event of type `"A"` used to dispatch against `c3S`. -/
def c3Ev : Event := { type := "A", data := none, timestamp := 0, id := 99 }

/-- Bus for the self-publishing-drain scenario: a listener on `"A"` that
republishes `"A"` with a decremented payload while it is positive, and one
queued `"A"` event with payload 2. -/
def c4S : EventSystem :=
  (publish (subscribe (initState cfgNone) "A" [CAction.publishDec "A", CAction.log 7] 0).2
    "A" (some 2) false).2.1

/-- Bus for the snapshot scenario: a once-wrapped listener (id 0, logs 1)
followed by two plain listeners (id 1 logs 2, id 2 logs 3), all priority 0
on `"A"`. -/
def c5S : EventSystem :=
  (subscribe (subscribe (once (initState cfgNone) "A" [CAction.log 1]).2
    "A" [CAction.log 2] 0).2 "A" [CAction.log 3] 0).2

/-- An event of type `"A"` used to dispatch against `c5S`. -/
def c5Ev : Event := { type := "A", data := none, timestamp := 0, id := 50 }

/-- Bus for the immediate-bypass scenario: one logging listener on `"A"`. -/
def c6S : EventSystem :=
  (subscribe (initState cfgNone) "A" [CAction.log 4] 0).2

/-- Bus for the history-query scenario: history holds three dispatched
events — ids 0 and 2 of type `"A"`, id 1 of type `"B"`. -/
def c7S : EventSystem :=
  runOps (initState cfgNone)
    [Op.subscribe "A" [] 0, Op.subscribe "B" [] 0,
     Op.publish "A" none true, Op.publish "B" none true, Op.publish "A" none true]

/-- A fresh event pushed by the caller onto the array `getEventHistory`
returned, to observe aliasing. -/
def c7Ev : Event := { type := "X", data := none, timestamp := 9, id := 77 }

/-- Configuration for the history-eviction scenario: `maxHistorySize = 3`. -/
def c8cfg : Config := { maxQueueSize := none, maxHistorySize := some 3 }

/-- Operations for the history-eviction scenario: subscribe a listener on
`"A"`, publish five `"A"` events, drain. -/
def c8ops : List Op :=
  [Op.subscribe "A" [] 0,
   Op.publish "A" none false, Op.publish "A" none false, Op.publish "A" none false,
   Op.publish "A" none false, Op.publish "A" none false,
   Op.update 10]

/-- Bus for the fault-isolation scenario: on `"A"` a throwing listener
(priority 1, id 0) above a logging listener (priority 0, id 1, logs 21); on
`"B"` a logging listener (id 2, logs 22); events of both types queued. -/
def c9S : EventSystem :=
  runOps (initState cfgNone)
    [Op.subscribe "A" [CAction.raiseErr] 1, Op.subscribe "A" [CAction.log 21] 0,
     Op.subscribe "B" [CAction.log 22] 0,
     Op.publish "A" none false, Op.publish "B" none false]

/-- The queued `"A"` event of the fault-isolation scenario (id 0). -/
def c9Ev : Event := { type := "A", data := none, timestamp := 0, id := 0 }

/-- Priority-descending order: the earlier listener has at least the later
one's priority. -/
def GEp (a b : Listener) : Prop := b.priority ≤ a.priority

/-- Registration-order tie-break: listeners of equal priority appear in
increasing listener-id order (ids are assigned in registration order). -/
def TieLt (a b : Listener) : Prop := a.priority = b.priority → a.id < b.id

/-- The ordering the spec requires of a listener sequence: strictly higher
priority first, ties in registration (listener-id) order. -/
def StableKey (a b : Listener) : Prop :=
  b.priority < a.priority ∨ (a.priority = b.priority ∧ a.id < b.id)

/-- The listener-sequence invariant: pairwise `StableKey`. -/
def SortedLs (l : List Listener) : Prop := l.Pairwise StableKey

/-- Callback commands that only observe (log) or end the callback (return,
throw) — they mutate nothing of the bus except the external `calls` array. -/
def pureAction : CAction → Bool
  | CAction.log _ => true
  | CAction.logEvent => true
  | CAction.ret _ => true
  | CAction.raiseErr => true
  | _ => false

/-- A callback all of whose commands are pure in the sense of `pureAction`. -/
def pureCallback (cb : Callback) : Bool := cb.all pureAction

/-- Two bus states that agree on every field except possibly the external
`calls` array. -/
def SameCore (s1 s2 : EventSystem) : Prop := s2 = { s1 with calls := s2.calls }

/-- History-frame: the step left the history log and its capacity unchanged. -/
def HFrame (s1 s2 : EventSystem) : Prop :=
  s2.eventHistory = s1.eventHistory ∧ s2.maxHistorySize = s1.maxHistorySize

/-- The history capacity invariant of the claim: the log never outgrows
`maxHistorySize`. -/
def HInv (s : EventSystem) : Prop := s.eventHistory.length ≤ s.maxHistorySize

/-- The listener-registry invariant: every type's sequence is stably sorted
and every registered id is below the id counter. -/
def LInv (s : EventSystem) : Prop :=
  ∀ t : String, SortedLs (getLs s t) ∧ ∀ a ∈ getLs s t, a.id < s.nextListenerId

end EventBus

namespace EventBus

/-! Theorems.  First the concrete-state facts that settle the claims whose
status is decided by a single run of the embedded code, then the helper
lemmas and the general theorems. -/

/-- Claim C1 (code behavior at the failing input): with listeners registered
for the two distinct types `"A"` and `"B"`, calling `removeAllListeners` for
`"A"` also empties `"B"`'s listener sequence, because the zero-parameter
`removeAllListeners` definition shadows the typed one; the shadowed (dead)
typed body would have left `"B"` untouched, as the claim expects. -/
theorem c1_remove_all_clears_every_type :
    getLs c1S "B" = [{ callback := [], priority := 5, id := 1 }]
    ∧ getLs c1S "A" ≠ []
    ∧ getLs (removeAllListeners c1S (some "A")) "B" = []
    ∧ getLs (removeAllListenersShadowed c1S "A") "B" = getLs c1S "B"
    ∧ getLs (removeAllListenersShadowed c1S "A") "A" = [] := by
  decide

/-- Claim C5 (counterexample): on `c5S` the listeners registered for `"A"`
at the start of the dispatch are ids `[0, 1, 2]`, but dispatching one `"A"`
event invokes only ids `[0, 2]`: the once-wrapped listener 0 unsubscribes
itself from inside its callback, the live array shifts, and listener 1 —
a member of the start-of-dispatch listener list — is skipped. -/
theorem c5_snapshot_counterexample :
    (getLs c5S "A").map (fun l => l.id) = [0, 1, 2]
    ∧ (processEvent c5S c5Ev).2.2 = [0, 2]
    ∧ ¬ (1 ∈ (processEvent c5S c5Ev).2.2) := by
  decide

/-- Claim C5 (amended): dispatch iterates the live listener array by index;
when the once-wrapped listener 0 removes itself during its callback, the
listener immediately after it (id 1) is skipped for that event, the listener
after that (id 2) is still invoked, no listener is invoked twice, and the
registry afterwards holds exactly ids `[1, 2]`. -/
theorem c5_live_iteration_skips_next :
    (processEvent c5S c5Ev).2.2 = [0, 2]
    ∧ (processEvent c5S c5Ev).1.calls = [1, 3]
    ∧ (getLs (processEvent c5S c5Ev).1 "A").map (fun l => l.id) = [1, 2]
    ∧ ((processEvent c5S c5Ev).2.2).Nodup := by
  decide

/-- Claim C6 (counterexample): an immediate publish on `c6S` does invoke the
listener synchronously (it logged 4), records the event in history and never
queues it — but `eventsProcessed` (and `eventsQueued`) stay unchanged, so the
event is *not* counted in the performance statistics; moreover an immediate
publish of a type no listener entry exists for is not recorded in history at
all (`processEvent` returns before `addToHistory`). -/
theorem c6_immediate_not_counted :
    (publish c6S "A" none true).2.1.calls = [4]
    ∧ (publish c6S "A" none true).2.1.eventHistory.map (fun e => e.id) = [0]
    ∧ (publish c6S "A" none true).2.1.eventQueue = []
    ∧ (publish c6S "A" none true).2.1.eventsProcessed = c6S.eventsProcessed
    ∧ (publish c6S "A" none true).2.1.eventsQueued = c6S.eventsQueued
    ∧ (publish (initState cfgNone) "B" none true).2.1.eventHistory = [] := by
  decide

/-- Claim C7 (counterexample): with both the type filter and the limit
absent, `getEventHistory` hands out the internal history array itself — the
aliasing flag is set, the contents are the internal list, and a `push` on the
returned array changes the bus's history, so the result is a live view, not
a fresh list. -/
theorem c7_live_view_counterexample :
    (getEventHistory c7S none none).1 = true
    ∧ (getEventHistory c7S none none).2 = c7S.eventHistory
    ∧ historyAfterResultPush c7S none none c7Ev ≠ c7S.eventHistory
    ∧ historyAfterResultPush c7S none none c7Ev = c7S.eventHistory ++ [c7Ev] := by
  decide

/-- Claim C10: on a bus whose `isInitialized` flag is down, `subscribe` and
`publish` return `false` (modelled `none`) and leave the state completely
unchanged; and `shutdown` always lowers the flag, so the same holds after a
shutdown. -/
theorem c10_uninitialized_noop (s : EventSystem) (h : s.isInitialized = false) :
    (∀ (t : String) (cb : Callback) (p : Int), subscribe s t cb p = (none, s))
    ∧ (∀ (t : String) (d : Option Nat) (imm : Bool), publish s t d imm = (none, s, []))
    ∧ (∀ (fuel : Nat) (s2 : EventSystem), ((shutdown fuel s2).1).isInitialized = false) := by
  refine ⟨fun t cb p => ?_, fun t d imm => ?_, fun fuel s2 => ?_⟩
  · simp [subscribe, h]
  · simp [publish, h]
  · rcases hp : processEventsF fuel s2 with ⟨s3, ok⟩
    simp [shutdown, hp]

/-- Claim C10 (witness): the general theorem applied to the freshly
constructed bus and to a bus after shutdown. -/
theorem c10_uninitialized_noop_witness :
    newEventSystem.isInitialized = false
    ∧ subscribe newEventSystem "A" [] 0 = (none, newEventSystem)
    ∧ publish newEventSystem "A" none false = (none, newEventSystem, [])
    ∧ ((shutdown 5 (initState cfgNone)).1).isInitialized = false := by
  have h := c10_uninitialized_noop newEventSystem (by decide)
  exact ⟨by decide, h.1 "A" [] 0, h.2.1 "A" none false, h.2.2 5 (initState cfgNone)⟩

end EventBus

namespace EventBus

theorem sameCore_refl (s : EventSystem) : SameCore s s := rfl

theorem sameCore_trans {a b c : EventSystem} (h1 : SameCore a b) (h2 : SameCore b c) : SameCore a c := by
  unfold SameCore at *
  rw [h2, h1]

theorem sameCore_step {s : EventSystem} (l : List Nat) : SameCore s { s with calls := l } := rfl

/-- Running an observer hook changes nothing but the external `calls` array. -/
theorem runObs_sameCore (ev : Event) : ∀ (obs : List ObsAction) (s : EventSystem), SameCore s (runObs s ev obs) := by
  intro obs
  induction obs with
  | nil => intro s; exact sameCore_refl s
  | cons a rest ih =>
    intro s
    cases a with
    | log n => exact sameCore_trans (sameCore_step _) (ih _)
    | logEvent => exact sameCore_trans (sameCore_step _) (ih _)

theorem SameCore.fields {s s2 : EventSystem} (h : SameCore s s2) :
    s2.isInitialized = s.isInitialized ∧ s2.listeners = s.listeners
    ∧ s2.eventQueue = s.eventQueue ∧ s2.maxQueueSize = s.maxQueueSize
    ∧ s2.processingEvents = s.processingEvents ∧ s2.eventHistory = s.eventHistory
    ∧ s2.maxHistorySize = s.maxHistorySize ∧ s2.eventsProcessed = s.eventsProcessed
    ∧ s2.eventsQueued = s.eventsQueued ∧ s2.eventsDropped = s.eventsDropped
    ∧ s2.eventTypes = s.eventTypes ∧ s2.onEventProcessed = s.onEventProcessed
    ∧ s2.onEventDropped = s.onEventDropped ∧ s2.nextListenerId = s.nextListenerId
    ∧ s2.nextEventId = s.nextEventId ∧ s2.clock = s.clock := by
  rw [show s2 = { s with calls := s2.calls } from h]
  repeat constructor

/-- Dropping branch of `queueEvent`: on a full queue the queue and the
queued counter are unchanged, the dropped counter increments, and a logging
drop callback observes the dropped event's id. -/
theorem queueEvent_drop (s : EventSystem) (ev : Event)
    (hfull : s.maxQueueSize ≤ s.eventQueue.length) :
    (queueEvent s ev).eventQueue = s.eventQueue
    ∧ (queueEvent s ev).eventsDropped = s.eventsDropped + 1
    ∧ (queueEvent s ev).eventsQueued = s.eventsQueued
    ∧ (s.onEventDropped = some [ObsAction.logEvent] →
        (queueEvent s ev).calls = s.calls ++ [ev.id]) := by
  obtain ⟨v1, v2, v3, v4, v5, v6, v7, v8, v9, v10, v11, v12, oed, v14, v15, v16, v17⟩ := s
  rcases oed with _ | obs
  · simp only [queueEvent]
    rw [if_pos hfull]
    exact ⟨rfl, rfl, rfl, fun hobs => absurd hobs (by simp)⟩
  · simp only [queueEvent]
    rw [if_pos hfull]
    have hf := (runObs_sameCore ev obs
      { isInitialized := v1, listeners := v2, eventQueue := v3, maxQueueSize := v4,
        processingEvents := v5, eventHistory := v6, maxHistorySize := v7,
        eventsProcessed := v8, eventsQueued := v9, eventsDropped := v10 + 1,
        eventTypes := v11, onEventProcessed := v12, onEventDropped := some obs,
        nextListenerId := v14, nextEventId := v15, clock := v16, calls := v17 }).fields
    obtain ⟨-, -, hqu, -, -, -, -, -, hevq, hevd, -⟩ := hf
    refine ⟨hqu, hevd, hevq, fun hobs => ?_⟩
    have hobs2 : obs = [ObsAction.logEvent] :=
      Option.some.inj (show some obs = some [ObsAction.logEvent] from hobs)
    subst hobs2
    simp [runObs]

/-- Claim C2: publishing non-immediately into a full queue drops the new
event: the queue is unchanged, `eventsDropped` increments by one,
`eventsQueued` does not move, `publish` still returns the event id consumed
by the discarded event, and a logging drop callback observes exactly the
dropped event. -/
theorem c2_drop_newest (s : EventSystem) (t : String) (d : Option Nat)
    (hinit : s.isInitialized = true) (ht : t ≠ "")
    (hfull : s.maxQueueSize ≤ s.eventQueue.length) :
    (publish s t d false).1 = some s.nextEventId
    ∧ (publish s t d false).2.1.eventQueue = s.eventQueue
    ∧ (publish s t d false).2.1.eventsDropped = s.eventsDropped + 1
    ∧ (publish s t d false).2.1.eventsQueued = s.eventsQueued
    ∧ (s.onEventDropped = some [ObsAction.logEvent] →
        (publish s t d false).2.1.calls = s.calls ++ [s.nextEventId]) := by
  have hq : publish s t d false =
      (some s.nextEventId,
        queueEvent { s with nextEventId := s.nextEventId + 1, clock := s.clock + 1 }
          { type := t, data := d, timestamp := s.clock, id := s.nextEventId }, []) := by
    simp [publish, publishQueued, hinit, ht]
  have hd := queueEvent_drop
    { s with nextEventId := s.nextEventId + 1, clock := s.clock + 1 }
    { type := t, data := d, timestamp := s.clock, id := s.nextEventId } hfull
  rw [hq]
  exact ⟨rfl, hd.1, hd.2.1, hd.2.2.1, fun hobs => hd.2.2.2 hobs⟩

/-- Claim C2 (witness): with `maxQueueSize = 3` and three events already
published, the fourth publish is dropped: the queue keeps the first three in
FIFO order, `eventsDropped` becomes 1, the drop callback logged the dropped
event id 3, and the publish returned that id. -/
theorem c2_drop_newest_witness :
    c2S3.maxQueueSize ≤ c2S3.eventQueue.length
    ∧ (publish c2S3 "E" none false).1 = some 3
    ∧ (publish c2S3 "E" none false).2.1.eventQueue.map (fun e => e.id) = [0, 1, 2]
    ∧ (publish c2S3 "E" none false).2.1.eventsDropped = 1
    ∧ (publish c2S3 "E" none false).2.1.eventsQueued = 3
    ∧ (publish c2S3 "E" none false).2.1.calls = [3] := by
  have h := c2_drop_newest c2S3 "E" none (by decide) (by decide) (by decide)
  refine ⟨by decide, h.1.trans (by decide), ?_, h.2.2.1.trans (by decide),
    h.2.2.2.1.trans (by decide), (h.2.2.2.2 (by decide)).trans (by decide)⟩
  rw [h.2.1]
  decide


/-- A completed `drainLoop` run ends with an empty queue: the loop only
returns `true` when it has observed `eventQueue = []`. -/
theorem drainLoop_done (fuel : Nat) :
    ∀ (s : EventSystem) (c : Nat) (s2 : EventSystem) (c2 : Nat),
      drainLoop fuel s c = (s2, c2, true) → s2.eventQueue = [] := by
  induction fuel with
  | zero =>
    intro s c s2 c2 h
    rcases hq : s.eventQueue with _ | ⟨ev, rest⟩
    · rw [drainLoop, hq] at h
      simp only [Prod.mk.injEq] at h
      obtain ⟨rfl, -, -⟩ := h
      exact hq
    · rw [drainLoop, hq] at h
      simp at h
  | succ f ih =>
    intro s c s2 c2 h
    rcases hq : s.eventQueue with _ | ⟨ev, rest⟩
    · rw [drainLoop, hq] at h
      simp only [Prod.mk.injEq] at h
      obtain ⟨rfl, -, -⟩ := h
      exact hq
    · rw [drainLoop, hq] at h
      exact ih _ _ _ _ h

/-- Claim C4: when a `processEvents` call that started outside a drain runs
to completion (the fuel sufficed, i.e. the JS loop terminated), the queue is
empty on return — the drain re-checks the queue every iteration, so events
republished by listeners during the drain are consumed in the same call. -/
theorem c4_drain_exhaustive (fuel : Nat) (s s2 : EventSystem)
    (hguard : s.processingEvents = false)
    (h : processEventsF fuel s = (s2, true)) :
    s2.eventQueue = [] := by
  unfold processEventsF at h
  by_cases hq : s.eventQueue = []
  · rw [if_pos (Or.inr hq)] at h
    simp only [Prod.mk.injEq] at h
    obtain ⟨rfl, -⟩ := h
    exact hq
  · rw [if_neg ?hneg] at h
    case hneg =>
      intro hor
      rcases hor with h1 | h1
      · exact absurd h1 (by simp [hguard])
      · exact hq h1
    rcases hdl : drainLoop fuel { s with processingEvents := true } 0 with ⟨s3, c3, ok⟩
    rw [hdl] at h
    cases ok
    · simp at h
    · simp only [Prod.mk.injEq] at h
      obtain ⟨rfl, -⟩ := h
      have h4 := drainLoop_done fuel _ _ _ _ hdl
      simpa using h4

/-- Claim C4 (witness): a listener on `"A"` that republishes `"A"` with a
decremented payload is triggered by one queued event with payload 2; a single
`update` call processes all three occurrences — the drain completes, the
queue ends empty, `eventsProcessed` rises by 3 and the listener ran 3
times. -/
theorem c4_drain_exhaustive_witness :
    c4S.processingEvents = false
    ∧ (update 10 c4S 0).2 = true
    ∧ (update 10 c4S 0).1.eventQueue = []
    ∧ (update 10 c4S 0).1.eventsProcessed = 3
    ∧ c4S.eventsProcessed = 0
    ∧ (update 10 c4S 0).1.calls = [7, 7, 7] := by
  refine ⟨by decide, by decide, ?_, by decide, by decide, by decide⟩
  exact c4_drain_exhaustive 10 c4S (update 10 c4S 0).1 (by decide)
    (Prod.ext rfl (by decide))


theorem hframe_trans {a b c : EventSystem} (h1 : HFrame a b) (h2 : HFrame b c) : HFrame a c :=
  ⟨h2.1.trans h1.1, h2.2.trans h1.2⟩

theorem hframe_of_sameCore {a b : EventSystem} (h : SameCore a b) : HFrame a b := by
  obtain ⟨-, -, -, -, -, h6, h7, -⟩ := h.fields
  exact ⟨h6, h7⟩

theorem unsubscribe_hframe (s : EventSystem) (t : String) (lid : Nat) :
    HFrame s (unsubscribe s t lid).2 := by
  unfold unsubscribe
  split
  · exact ⟨rfl, rfl⟩
  · split
    · exact ⟨rfl, rfl⟩
    · exact ⟨rfl, rfl⟩

theorem queueEvent_hframe (s : EventSystem) (ev : Event) : HFrame s (queueEvent s ev) := by
  obtain ⟨v1, v2, v3, v4, v5, v6, v7, v8, v9, v10, v11, v12, oed, v14, v15, v16, v17⟩ := s
  unfold queueEvent
  by_cases hful : v4 ≤ v3.length
  · rw [if_pos hful]
    rcases oed with _ | obs
    · exact ⟨rfl, rfl⟩
    · dsimp only
      refine hframe_trans ?_ (hframe_of_sameCore (runObs_sameCore ev obs _))
      exact ⟨rfl, rfl⟩
  · rw [if_neg hful]
    exact ⟨rfl, rfl⟩

theorem publishQueued_hframe (s : EventSystem) (t : String) (d : Option Nat) :
    HFrame s (publishQueued s t d).2 := by
  unfold publishQueued
  by_cases h1 : s.isInitialized = false
  · rw [if_pos h1]; exact ⟨rfl, rfl⟩
  · rw [if_neg h1]
    by_cases h2 : t = ""
    · rw [if_pos h2]; exact ⟨rfl, rfl⟩
    · rw [if_neg h2]
      exact queueEvent_hframe
        { s with nextEventId := s.nextEventId + 1, clock := s.clock + 1 }
        { type := t, data := d, timestamp := s.clock, id := s.nextEventId }

theorem runCallback_hframe (ev : Event) :
    ∀ (cb : Callback) (s : EventSystem), HFrame s (runCallback s ev cb).1 := by
  intro cb
  induction cb with
  | nil => intro s; exact ⟨rfl, rfl⟩
  | cons a rest ih =>
    intro s
    cases a with
    | log n => exact hframe_trans (⟨rfl, rfl⟩ : HFrame s { s with calls := s.calls ++ [n] }) (ih _)
    | logEvent =>
      exact hframe_trans (⟨rfl, rfl⟩ : HFrame s { s with calls := s.calls ++ [ev.id] }) (ih _)
    | ret v => exact ⟨rfl, rfl⟩
    | raiseErr => exact ⟨rfl, rfl⟩
    | unsub t lid => exact hframe_trans (unsubscribe_hframe s t lid) (ih _)
    | publishQ t d => exact hframe_trans (publishQueued_hframe s t d) (ih _)
    | publishDec t =>
      rcases hd : ev.data with _ | (_ | k) <;> simp only [runCallback, hd]
      · exact ih s
      · exact ih s
      · exact hframe_trans (publishQueued_hframe s t (some k)) (ih _)

theorem dispatchLoop_hframe (ev : Event) :
    ∀ (fuel i : Nat) (s : EventSystem) (res inv : List Nat),
      HFrame s (dispatchLoop ev fuel i s res inv).1 := by
  intro fuel
  induction fuel with
  | zero => intro i s res inv; exact ⟨rfl, rfl⟩
  | succ f ih =>
    intro i s res inv
    simp only [dispatchLoop]
    by_cases h : i < (getLs s ev.type).length
    · rw [dif_pos h]
      generalize hrc : runCallback s ev ((getLs s ev.type)[i].callback) = rc
      obtain ⟨s1, rv, rz⟩ := rc
      have h1 : HFrame s s1 := by
        have h2 := runCallback_hframe ev ((getLs s ev.type)[i].callback) s
        rw [hrc] at h2
        exact h2
      exact hframe_trans h1 (ih _ _ _ _)
    · rw [dif_neg h]
      exact ⟨rfl, rfl⟩

theorem histAppend_length (h : List Event) (ev : Event) (m : Nat)
    (hle : h.length ≤ m) : (histAppend h ev m).length ≤ m := by
  unfold histAppend
  by_cases hb : m < (h ++ [ev]).length
  · rw [if_pos hb]
    simp only [List.length_drop, List.length_append, List.length_singleton]
    omega
  · rw [if_neg hb]
    simp only [List.length_append, List.length_singleton] at hb ⊢
    omega

theorem hinv_of_hframe {a b : EventSystem} (hf : HFrame a b) (h : HInv a) : HInv b := by
  unfold HInv at h ⊢
  rw [hf.1, hf.2]
  exact h

theorem processEvent_HInv (s : EventSystem) (ev : Event) (h : HInv s) :
    HInv (processEvent s ev).1 := by
  unfold processEvent
  split
  · exact h
  next arr hf =>
    split
    next s1 res inv hdp =>
      have hfr := dispatchLoop_hframe ev arr.length 0 s [] []
      rw [hdp] at hfr
      have h1 : HInv s1 := hinv_of_hframe hfr h
      have h2 : HInv (addToHistory s1 ev) := histAppend_length _ _ _ h1
      dsimp only
      split
      · exact hinv_of_hframe (hframe_of_sameCore (runObs_sameCore ev _ _)) h2
      · exact h2

theorem drainLoop_HInv (fuel : Nat) :
    ∀ (s : EventSystem) (c : Nat), HInv s → HInv (drainLoop fuel s c).1 := by
  induction fuel with
  | zero =>
    intro s c h
    rcases hq : s.eventQueue with _ | ⟨ev, rest⟩ <;> rw [drainLoop, hq]
    · exact h
    · exact h
  | succ f ih =>
    intro s c h
    rcases hq : s.eventQueue with _ | ⟨ev, rest⟩ <;> rw [drainLoop, hq]
    · exact h
    · exact ih _ _ (processEvent_HInv { s with eventQueue := rest } ev h)

theorem processEventsF_HInv (fuel : Nat) (s : EventSystem) (h : HInv s) :
    HInv (processEventsF fuel s).1 := by
  unfold processEventsF
  by_cases hg : s.processingEvents = true ∨ s.eventQueue = []
  · rw [if_pos hg]; exact h
  · rw [if_neg hg]
    rcases hdl : drainLoop fuel { s with processingEvents := true } 0 with ⟨s3, c3, ok⟩
    have h3 : HInv s3 := by
      have h4 := drainLoop_HInv fuel { s with processingEvents := true } 0 h
      rw [hdl] at h4
      exact h4
    cases ok
    · exact h3
    · exact h3

theorem subscribe_hframe (s : EventSystem) (t : String) (cb : Callback) (p : Int) :
    HFrame s (subscribe s t cb p).2 := by
  unfold subscribe
  by_cases h1 : s.isInitialized = false
  · rw [if_pos h1]; exact ⟨rfl, rfl⟩
  · rw [if_neg h1]
    by_cases h2 : t = ""
    · rw [if_pos h2]; exact ⟨rfl, rfl⟩
    · rw [if_neg h2]; exact ⟨rfl, rfl⟩

theorem publish_HInv (s : EventSystem) (t : String) (d : Option Nat) (imm : Bool)
    (h : HInv s) : HInv (publish s t d imm).2.1 := by
  simp only [publish]
  by_cases h1 : s.isInitialized = false
  · rw [if_pos h1]; exact h
  · rw [if_neg h1]
    by_cases h2 : t = ""
    · rw [if_pos h2]; exact h
    · rw [if_neg h2]
      cases imm
      · rw [if_neg (by simp)]
        rcases hpq : publishQueued s t d with ⟨r, s1⟩
        have hfr := publishQueued_hframe s t d
        rw [hpq] at hfr
        exact hinv_of_hframe hfr h
      · rw [if_pos rfl]
        rcases hpe : processEvent
            { s with nextEventId := s.nextEventId + 1, clock := s.clock + 1 }
            { type := t, data := d, timestamp := s.clock, id := s.nextEventId } with ⟨s2, res, inv⟩
        have h5 := processEvent_HInv
          { s with nextEventId := s.nextEventId + 1, clock := s.clock + 1 }
          { type := t, data := d, timestamp := s.clock, id := s.nextEventId } h
        rw [hpe] at h5
        exact h5

theorem shutdown_HInv (fuel : Nat) (s : EventSystem) : HInv (shutdown fuel s).1 := by
  unfold shutdown
  rcases hp : processEventsF fuel s with ⟨s1, ok⟩
  exact Nat.zero_le _

theorem applyOp_HInv (s : EventSystem) (op : Op) (h : HInv s) : HInv (applyOp s op) := by
  cases op with
  | subscribe t cb p => exact hinv_of_hframe (subscribe_hframe s t cb p) h
  | unsubscribe t lid => exact hinv_of_hframe (unsubscribe_hframe s t lid) h
  | publish t d imm => exact publish_HInv s t d imm h
  | update fuel => exact processEventsF_HInv fuel s h
  | once t cb => exact hinv_of_hframe (subscribe_hframe s t _ 0) h
  | removeAllListeners t => exact h
  | clearHistory => exact Nat.zero_le _
  | clearQueue => exact h
  | resetPerformanceStats => exact h
  | setDroppedCallback obs => exact h
  | setProcessedCallback obs => exact h
  | shutdown fuel => exact shutdown_HInv fuel s

theorem runOps_HInv (ops : List Op) :
    ∀ (s : EventSystem), HInv s → HInv (runOps s ops) := by
  induction ops with
  | nil => intro s h; exact h
  | cons op rest ih =>
    intro s h
    exact ih _ (applyOp_HInv s op h)

/-- Claim C8: from any initialized configuration, after any sequence of bus
operations the history log never outgrows `maxHistorySize` (the overflow
branch of `addToHistory` evicts the oldest entry); concretely, with
`maxHistorySize = 3`, publishing five events of a subscribed type and
draining leaves exactly the last three events (ids 2, 3, 4) in order. -/
theorem c8_history_bounded :
    (∀ (cfg : Config) (ops : List Op), HInv (runOps (initState cfg) ops))
    ∧ (runOps (initState c8cfg) c8ops).eventHistory.map (fun e => e.id) = [2, 3, 4]
    ∧ (runOps (initState c8cfg) c8ops).maxHistorySize = 3 := by
  refine ⟨fun cfg ops => runOps_HInv ops (initState cfg) (Nat.zero_le _), by decide, by decide⟩


theorem mem_ordInsert {x a : Listener} :
    ∀ {l : List Listener}, x ∈ ordInsert a l ↔ x = a ∨ x ∈ l := by
  intro l
  induction l with
  | nil => simp [ordInsert]
  | cons b t ih =>
    simp only [ordInsert]
    by_cases hb : b.priority ≤ a.priority
    · rw [if_pos hb]
      simp [List.mem_cons]
    · rw [if_neg hb]
      simp only [List.mem_cons, ih]
      tauto

theorem ordInsert_pairwise_ge {a : Listener} :
    ∀ {l : List Listener}, l.Pairwise GEp → (ordInsert a l).Pairwise GEp := by
  intro l
  induction l with
  | nil => intro h; simp [ordInsert]
  | cons b t ih =>
    intro h
    rcases List.pairwise_cons.mp h with ⟨hhead, htail⟩
    simp only [ordInsert]
    by_cases hb : b.priority ≤ a.priority
    · rw [if_pos hb]
      refine List.pairwise_cons.mpr ⟨?_, h⟩
      intro c hc
      rcases List.mem_cons.mp hc with rfl | hct
      · exact hb
      · exact le_trans (hhead c hct) hb
    · rw [if_neg hb]
      refine List.pairwise_cons.mpr ⟨?_, ih htail⟩
      intro c hc
      rcases mem_ordInsert.mp hc with rfl | hct
      · exact le_of_lt (lt_of_not_le hb)
      · exact hhead c hct

theorem insSort_pairwise_ge : ∀ (l : List Listener), (insSortDesc l).Pairwise GEp := by
  intro l
  induction l with
  | nil => simp [insSortDesc]
  | cons a t ih =>
    simp only [insSortDesc]
    exact ordInsert_pairwise_ge ih

theorem ordInsert_pairwise_tie {a : Listener} :
    ∀ {l : List Listener}, l.Pairwise TieLt → (∀ b ∈ l, TieLt a b) →
      (ordInsert a l).Pairwise TieLt := by
  intro l
  induction l with
  | nil => intro _ _; simp [ordInsert]
  | cons b t ih =>
    intro h ha
    rcases List.pairwise_cons.mp h with ⟨hhead, htail⟩
    simp only [ordInsert]
    by_cases hb : b.priority ≤ a.priority
    · rw [if_pos hb]
      refine List.pairwise_cons.mpr ⟨?_, h⟩
      intro c hc
      rcases List.mem_cons.mp hc with rfl | hct
      · exact ha _ (List.mem_cons_self _ _)
      · exact ha c (List.mem_cons_of_mem b hct)
    · rw [if_neg hb]
      refine List.pairwise_cons.mpr
        ⟨?_, ih htail (fun c hc => ha c (List.mem_cons_of_mem b hc))⟩
      intro c hc
      rcases mem_ordInsert.mp hc with rfl | hct
      · intro heq
        exact absurd (le_of_eq heq) hb
      · exact hhead c hct

theorem mem_insSort {x : Listener} :
    ∀ {l : List Listener}, x ∈ insSortDesc l ↔ x ∈ l := by
  intro l
  induction l with
  | nil => simp [insSortDesc]
  | cons a t ih =>
    simp only [insSortDesc]
    rw [mem_ordInsert]
    simp [ih]

theorem insSort_pairwise_tie :
    ∀ {l : List Listener}, l.Pairwise TieLt → (insSortDesc l).Pairwise TieLt := by
  intro l
  induction l with
  | nil => intro h; simp [insSortDesc]
  | cons a t ih =>
    intro h
    rcases List.pairwise_cons.mp h with ⟨hhead, htail⟩
    simp only [insSortDesc]
    exact ordInsert_pairwise_tie (ih htail) (fun b hb => hhead b (mem_insSort.mp hb))

/-- A stable descending sort of a list whose equal-priority elements already
carry increasing ids produces a sequence satisfying the claimed invariant. -/
theorem sortedLs_insSort {l : List Listener} (h : l.Pairwise TieLt) :
    SortedLs (insSortDesc l) := by
  have h1 := insSort_pairwise_ge l
  have h2 := insSort_pairwise_tie h
  exact (h1.and h2).imp (fun hab =>
    (lt_or_eq_of_le hab.1).elim Or.inl (fun heq => Or.inr ⟨heq.symm, hab.2 heq.symm⟩))

theorem tieLt_of_stableKey {a b : Listener} (h : StableKey a b) : TieLt a b := by
  intro heq
  rcases h with hlt | ⟨heq2, hid⟩
  · rw [heq] at hlt
    exact absurd hlt (lt_irrefl _)
  · exact hid

theorem findLs_updateLs_self :
    ∀ (m : List (String × List Listener)) (t : String) (l : List Listener),
      findLs (updateLs m t l) t = some l := by
  intro m t l
  induction m with
  | nil => simp [updateLs, findLs]
  | cons kv rest ih =>
    obtain ⟨k, v⟩ := kv
    simp only [updateLs]
    by_cases hk : k = t
    · rw [if_pos hk]
      simp [findLs, hk]
    · rw [if_neg hk]
      simp [findLs, hk, ih]

theorem findLs_updateLs_ne (t t2 : String) (l : List Listener) (hne : t2 ≠ t) :
    ∀ (m : List (String × List Listener)),
      findLs (updateLs m t l) t2 = findLs m t2 := by
  intro m
  induction m with
  | nil =>
    simp only [updateLs, findLs]
    rw [if_neg (fun h => hne h.symm)]
  | cons kv rest ih =>
    obtain ⟨k, v⟩ := kv
    simp only [updateLs]
    by_cases hk : k = t
    · rw [if_pos hk]
      have hk2 : ¬ (k = t2) := fun h => hne (h ▸ hk)
      simp only [findLs]
      rw [if_neg hk2, if_neg hk2]
    · rw [if_neg hk]
      simp only [findLs]
      by_cases hk2 : k = t2
      · rw [if_pos hk2, if_pos hk2]
      · rw [if_neg hk2, if_neg hk2]
        exact ih

theorem subscribe_listeners_eq (s : EventSystem) (t : String) (cb : Callback) (p : Int)
    (h1 : s.isInitialized = true) (h2 : t ≠ "") :
    (subscribe s t cb p).2.listeners =
      updateLs s.listeners t
        (insSortDesc (getLs s t ++ [{ callback := cb, priority := p, id := s.nextListenerId }]))
    ∧ (subscribe s t cb p).2.nextListenerId = s.nextListenerId + 1 := by
  unfold subscribe
  rw [if_neg (by simp [h1]), if_neg h2]
  exact ⟨rfl, rfl⟩

theorem subscribe_LInv (s : EventSystem) (t : String) (cb : Callback) (p : Int)
    (h : LInv s) : LInv (subscribe s t cb p).2 := by
  by_cases h1 : s.isInitialized = false
  · unfold subscribe
    rw [if_pos h1]
    exact h
  · by_cases h2 : t = ""
    · unfold subscribe
      rw [if_neg h1, if_pos h2]
      exact h
    · have h1b : s.isInitialized = true := by
        cases hb : s.isInitialized
        · exact absurd hb h1
        · rfl
      obtain ⟨hls, hnext⟩ := subscribe_listeners_eq s t cb p h1b h2
      have hpair : (getLs s t ++
          [({ callback := cb, priority := p, id := s.nextListenerId } : Listener)]).Pairwise TieLt := by
        rw [List.pairwise_append]
        refine ⟨(h t).1.imp tieLt_of_stableKey, List.pairwise_singleton _ _, ?_⟩
        intro a ha b hb
        have hb2 : b = { callback := cb, priority := p, id := s.nextListenerId } :=
          List.mem_singleton.mp hb
        subst hb2
        intro heq
        exact (h t).2 a ha
      intro t2
      constructor
      · by_cases ht2 : t2 = t
        · subst ht2
          unfold getLs
          rw [hls, findLs_updateLs_self]
          exact sortedLs_insSort hpair
        · unfold getLs
          rw [hls, findLs_updateLs_ne t t2 _ ht2]
          exact (h t2).1
      · intro a ha
        rw [hnext]
        by_cases ht2 : t2 = t
        · subst ht2
          unfold getLs at ha
          rw [hls, findLs_updateLs_self] at ha
          have ha2 := mem_insSort.mp ha
          rcases List.mem_append.mp ha2 with hold | hnew
          · exact Nat.lt_succ_of_lt ((h t2).2 a hold)
          · rcases List.mem_singleton.mp hnew with rfl
            exact Nat.lt_succ_self _
        · unfold getLs at ha
          rw [hls, findLs_updateLs_ne t t2 _ ht2] at ha
          exact Nat.lt_succ_of_lt ((h t2).2 a ha)

theorem applySubs_LInv (subs : List (String × Int × Callback)) :
    ∀ (s : EventSystem), LInv s → LInv (applySubs s subs) := by
  induction subs with
  | nil => intro s h; exact h
  | cons x rest ih =>
    intro s h
    exact ih _ (subscribe_LInv s x.1 x.2.2 x.2.1 h)

theorem initState_LInv (cfg : Config) : LInv (initState cfg) := by
  intro t
  constructor
  · exact List.Pairwise.nil
  · intro a ha
    exact absurd ha (List.not_mem_nil a)


theorem runCallback_pure_sameCore (ev : Event) :
    ∀ (cb : Callback), pureCallback cb = true →
      ∀ (s : EventSystem), SameCore s (runCallback s ev cb).1 := by
  intro cb
  induction cb with
  | nil => intro _ s; exact sameCore_refl s
  | cons a rest ih =>
    intro hp s
    simp only [pureCallback, List.all_cons, Bool.and_eq_true] at hp
    cases a with
    | log n => exact sameCore_trans (sameCore_step _) (ih hp.2 _)
    | logEvent => exact sameCore_trans (sameCore_step _) (ih hp.2 _)
    | ret v => exact sameCore_refl s
    | raiseErr => exact sameCore_refl s
    | unsub t lid => exact absurd hp.1 (by simp [pureAction])
    | publishQ t d => exact absurd hp.1 (by simp [pureAction])
    | publishDec t => exact absurd hp.1 (by simp [pureAction])

/-- Dispatch over a listener list none of whose callbacks mutate the bus:
only the external `calls` array can change, and the invoked listener ids are
exactly the remaining ids of the (stable) live list in order. -/
theorem dispatchLoop_pure (ev : Event) (l : List Listener)
    (hpure : ∀ x ∈ l, pureCallback x.callback = true) :
    ∀ (fuel i : Nat) (s : EventSystem) (res inv : List Nat),
      getLs s ev.type = l → fuel + i = l.length →
      SameCore s (dispatchLoop ev fuel i s res inv).1
      ∧ (dispatchLoop ev fuel i s res inv).2.2 = inv ++ (l.drop i).map (fun x => x.id) := by
  intro fuel
  induction fuel with
  | zero =>
    intro i s res inv hls hlen
    have hi : i = l.length := by omega
    subst hi
    simp only [dispatchLoop]
    exact ⟨sameCore_refl s, by rw [List.drop_length]; simp⟩
  | succ f ih =>
    intro i s res inv hls hlen
    have hil : i < l.length := by omega
    have hi : i < (getLs s ev.type).length := by rw [hls]; exact hil
    simp only [dispatchLoop]
    rw [dif_pos hi]
    have hel : (getLs s ev.type)[i] = l[i] := List.getElem_of_eq hls hi
    have hmem : l[i] ∈ l := List.getElem_mem hil
    have hpcb : pureCallback ((getLs s ev.type)[i].callback) = true := by
      rw [hel]
      exact hpure _ hmem
    generalize hrc : runCallback s ev ((getLs s ev.type)[i].callback) = rc
    have hsc1 : SameCore s rc.1 := by
      rw [← hrc]
      exact runCallback_pure_sameCore ev _ hpcb s
    obtain ⟨s1, rv, rz⟩ := rc
    have hls1 : getLs s1 ev.type = l := by
      have hll : s1.listeners = s.listeners := hsc1.fields.2.1
      unfold getLs at hls ⊢
      rw [hll]
      exact hls
    obtain ⟨ihsc, ihinv⟩ :=
      ih (i + 1) s1 (res ++ rv.toList) (inv ++ [(getLs s ev.type)[i].id]) hls1 (by omega)
    refine ⟨sameCore_trans hsc1 ihsc, ?_⟩
    rw [ihinv, hel, List.drop_eq_getElem_cons hil]
    simp only [List.map_cons, List.append_assoc, List.singleton_append]

/-- `processEvent` over a registered listener list of non-mutating callbacks:
all listeners are invoked in order, the event is appended to history, and the
queue, counters and registry are untouched. -/
theorem processEvent_pure (s : EventSystem) (ev : Event) (l : List Listener)
    (hfind : findLs s.listeners ev.type = some l)
    (hpure : ∀ x ∈ l, pureCallback x.callback = true) :
    (processEvent s ev).2.2 = l.map (fun x => x.id)
    ∧ (processEvent s ev).1.eventQueue = s.eventQueue
    ∧ (processEvent s ev).1.eventHistory = histAppend s.eventHistory ev s.maxHistorySize
    ∧ (processEvent s ev).1.eventsProcessed = s.eventsProcessed
    ∧ (processEvent s ev).1.eventsQueued = s.eventsQueued
    ∧ (processEvent s ev).1.eventsDropped = s.eventsDropped
    ∧ (processEvent s ev).1.listeners = s.listeners := by
  have hls : getLs s ev.type = l := by
    unfold getLs
    rw [hfind]
    rfl
  unfold processEvent
  rw [hfind]
  dsimp only
  generalize hdp : dispatchLoop ev l.length 0 s [] [] = dres
  obtain ⟨hsc, hinv⟩ := dispatchLoop_pure ev l hpure l.length 0 s [] [] hls (by omega)
  rw [hdp] at hsc hinv
  obtain ⟨s1, res, inv⟩ := dres
  obtain ⟨hc1, hc2, hc3, hc4, hc5, hc6, hc7, hc8, hc9, hc10, hc11, hc12, hc13, hc14,
    hc15, hc16⟩ := hsc.fields
  rcases hop : s.onEventProcessed with _ | obs
  · rw [show (addToHistory s1 ev).onEventProcessed = s.onEventProcessed from hc12, hop]
    dsimp only
    refine ⟨by simpa using hinv, hc3, ?_, hc8, hc9, hc10, hc2⟩
    show histAppend s1.eventHistory ev s1.maxHistorySize = _
    rw [hc6, hc7]
  · rw [show (addToHistory s1 ev).onEventProcessed = s.onEventProcessed from hc12, hop]
    dsimp only
    obtain ⟨-, ho2, ho3, -, -, ho6, ho7, ho8, ho9, ho10, -, -, -, -, -, -⟩ :=
      (runObs_sameCore ev obs (addToHistory s1 ev)).fields
    refine ⟨by simpa using hinv, ho3.trans hc3, ?_, ho8.trans hc8, ho9.trans hc9,
      ho10.trans hc10, ho2.trans hc2⟩
    refine ho6.trans ?_
    show histAppend s1.eventHistory ev s1.maxHistorySize = _
    rw [hc6, hc7]


/-- Claim C3: after any sequence of `subscribe` calls on an initialized bus,
every type's listener sequence is sorted by priority descending with ties in
registration order (listener ids are assigned from a counter, so id order is
registration order); dispatch invokes callbacks in exactly that list order;
and for priorities `[5, 1, 5, -2]` registered in that order the dispatch
order is ids `[0, 2, 1, 3]` — both priority-5 listeners first, in
registration order. -/
theorem c3_priority_order :
    (∀ (cfg : Config) (subs : List (String × Int × Callback)) (t : String),
      SortedLs (getLs (applySubs (initState cfg) subs) t))
    ∧ (∀ (s : EventSystem) (ev : Event) (l : List Listener),
        findLs s.listeners ev.type = some l →
        (∀ x ∈ l, pureCallback x.callback = true) →
        (processEvent s ev).2.2 = l.map (fun x => x.id))
    ∧ (getLs c3S "A").map (fun x => (x.priority, x.id)) = [(5, 0), (5, 2), (1, 1), (-2, 3)]
    ∧ (processEvent c3S c3Ev).2.2 = [0, 2, 1, 3]
    ∧ (processEvent c3S c3Ev).1.calls = [10, 12, 11, 13] := by
  refine ⟨?_, ?_, by decide, by decide, by decide⟩
  · intro cfg subs t
    exact (applySubs_LInv subs (initState cfg) (initState_LInv cfg) t).1
  · intro s ev l hfind hpure
    exact (processEvent_pure s ev l hfind hpure).1

/-- Claim C3 (witness): the invariant theorem applied to the concrete
`[5, 1, 5, -2]` registration sequence, and the dispatch-order component
applied to the resulting bus. -/
theorem c3_priority_order_witness :
    SortedLs (getLs c3S "A")
    ∧ (processEvent c3S c3Ev).2.2 =
        [({ callback := [CAction.log 10], priority := 5, id := 0 } : Listener),
         { callback := [CAction.log 12], priority := 5, id := 2 },
         { callback := [CAction.log 11], priority := 1, id := 1 },
         { callback := [CAction.log 13], priority := -2, id := 3 }].map (fun x => x.id) := by
  constructor
  · exact c3_priority_order.1 cfgNone
      [("A", 5, [CAction.log 10]), ("A", 1, [CAction.log 11]),
       ("A", 5, [CAction.log 12]), ("A", -2, [CAction.log 13])] "A"
  · exact c3_priority_order.2.1 c3S c3Ev _ (by decide) (by decide)

/-- Claim C6 (amended): an immediate publish on an initialized bus returns
the new event id and dispatches synchronously; when the type has a listener
entry whose callbacks do not mutate the bus, every current listener is
invoked in order and the event is appended to history; the event never
touches the queue and the performance counters are unchanged.  When the type
has no listener entry, the dispatch returns early: the event is not recorded
in history and the queue is also untouched. -/
theorem c6_immediate_amended :
    (∀ (s : EventSystem) (t : String) (d : Option Nat) (l : List Listener),
      s.isInitialized = true → t ≠ "" →
      findLs s.listeners t = some l →
      (∀ x ∈ l, pureCallback x.callback = true) →
      (publish s t d true).1 = some s.nextEventId
      ∧ (publish s t d true).2.2 = l.map (fun x => x.id)
      ∧ (publish s t d true).2.1.eventQueue = s.eventQueue
      ∧ (publish s t d true).2.1.eventHistory =
          histAppend s.eventHistory
            { type := t, data := d, timestamp := s.clock, id := s.nextEventId }
            s.maxHistorySize
      ∧ (publish s t d true).2.1.eventsProcessed = s.eventsProcessed
      ∧ (publish s t d true).2.1.eventsQueued = s.eventsQueued
      ∧ (publish s t d true).2.1.eventsDropped = s.eventsDropped)
    ∧ (∀ (s : EventSystem) (t : String) (d : Option Nat),
        findLs s.listeners t = none →
        (publish s t d true).2.1.eventHistory = s.eventHistory
        ∧ (publish s t d true).2.1.eventQueue = s.eventQueue) := by
  constructor
  · intro s t d l hinit ht hfind hpure
    have hq : publish s t d true =
        (some s.nextEventId,
         (processEvent { s with nextEventId := s.nextEventId + 1, clock := s.clock + 1 }
            { type := t, data := d, timestamp := s.clock, id := s.nextEventId }).1,
         (processEvent { s with nextEventId := s.nextEventId + 1, clock := s.clock + 1 }
            { type := t, data := d, timestamp := s.clock, id := s.nextEventId }).2.2) := by
      simp only [publish]
      rw [if_neg (by simp [hinit]), if_neg ht, if_pos trivial]
    obtain ⟨p1, p2, p3, p4, p5, p6, -⟩ := processEvent_pure
      { s with nextEventId := s.nextEventId + 1, clock := s.clock + 1 }
      { type := t, data := d, timestamp := s.clock, id := s.nextEventId } l hfind hpure
    rw [hq]
    exact ⟨rfl, p1, p2, p3, p4, p5, p6⟩
  · intro s t d hfind
    by_cases h1 : s.isInitialized = false
    · simp only [publish]
      rw [if_pos h1]
      exact ⟨rfl, rfl⟩
    · by_cases h2 : t = ""
      · simp only [publish]
        rw [if_neg h1, if_pos h2]
        exact ⟨rfl, rfl⟩
      · simp only [publish]
        rw [if_neg h1, if_neg h2, if_pos trivial]
        have hpe : processEvent { s with nextEventId := s.nextEventId + 1, clock := s.clock + 1 }
            { type := t, data := d, timestamp := s.clock, id := s.nextEventId } =
            ({ s with nextEventId := s.nextEventId + 1, clock := s.clock + 1 }, [], []) := by
          unfold processEvent
          dsimp only
          rw [hfind]
        rw [hpe]
        exact ⟨rfl, rfl⟩

/-- Claim C6 (amended, witness): on `c6S` (one logging listener on `"A"`)
an immediate publish returns id 0, invokes listener 0 synchronously, never
queues, records the event in history, and leaves `eventsProcessed` at 0; an
immediate publish of the never-subscribed type `"Z"` leaves history empty. -/
theorem c6_immediate_amended_witness :
    (publish c6S "A" none true).1 = some 0
    ∧ (publish c6S "A" none true).2.2 = [0]
    ∧ (publish c6S "A" none true).2.1.eventQueue = []
    ∧ (publish c6S "A" none true).2.1.eventHistory.map (fun e => e.id) = [0]
    ∧ (publish c6S "A" none true).2.1.eventsProcessed = 0
    ∧ (publish (initState cfgNone) "Z" none true).2.1.eventHistory = [] := by
  have h := c6_immediate_amended.1 c6S "A" none
    [({ callback := [CAction.log 4], priority := 0, id := 0 } : Listener)]
    (by decide) (by decide) (by decide) (by decide)
  have h2 := c6_immediate_amended.2 (initState cfgNone) "Z" none (by decide)
  refine ⟨h.1.trans (by decide), h.2.1.trans (by decide), h.2.2.1.trans (by decide), ?_,
    h.2.2.2.2.1.trans (by decide), h2.1.trans (by decide)⟩
  rw [h.2.2.2.1]
  decide

/-- Claim C9: a listener whose callback throws is caught: the remaining
(lower-priority) listener for the same event is still invoked (the invoked
ids are exactly `[b.id, g.id]`), the event is still appended to history, and
the queue — hence the surrounding drain — is unaffected. -/
theorem c9_fault_isolation (s : EventSystem) (ev : Event) (b g : Listener) (n : Nat)
    (hfind : findLs s.listeners ev.type = some [b, g])
    (hb : b.callback = [CAction.raiseErr])
    (hg : g.callback = [CAction.log n]) :
    (processEvent s ev).2.2 = [b.id, g.id]
    ∧ (processEvent s ev).1.eventHistory = histAppend s.eventHistory ev s.maxHistorySize
    ∧ (processEvent s ev).1.eventQueue = s.eventQueue := by
  have hpure : ∀ x ∈ [b, g], pureCallback x.callback = true := by
    intro x hx
    rcases List.mem_cons.mp hx with rfl | hx2
    · rw [hb]
      rfl
    · have hx3 : x = g := List.mem_singleton.mp hx2
      subst hx3
      rw [hg]
      rfl
  obtain ⟨p1, p2, p3, -⟩ := processEvent_pure s ev [b, g] hfind hpure
  exact ⟨by simpa using p1, p3, p2⟩

/-- Claim C9 (witness): on `c9S` the `"A"` event's throwing priority-1
listener does not stop the priority-0 logging listener (invoked ids
`[0, 1]`, the log fired), the event reaches history, and the drain continues
to the queued `"B"` event: one `update` processes both events and both
logging listeners ran. -/
theorem c9_fault_isolation_witness :
    (processEvent c9S c9Ev).2.2 = [0, 1]
    ∧ (processEvent c9S c9Ev).1.eventHistory.map (fun e => e.id) = [0]
    ∧ (processEvent c9S c9Ev).1.calls = [21]
    ∧ (update 10 c9S 0).1.eventsProcessed = 2
    ∧ (update 10 c9S 0).1.calls = [21, 22]
    ∧ (update 10 c9S 0).1.eventHistory.map (fun e => e.id) = [0, 1]
    ∧ (update 10 c9S 0).1.eventQueue = [] := by
  have h := c9_fault_isolation c9S c9Ev
    { callback := [CAction.raiseErr], priority := 1, id := 0 }
    { callback := [CAction.log 21], priority := 0, id := 1 } 21
    (by decide) (by decide) (by decide)
  refine ⟨h.1.trans (by decide), ?_, by decide, by decide, by decide, by decide, by decide⟩
  rw [h.2.1]
  decide


/-- Claim C7 (amended): whenever a truthy type filter or a truthy limit is
supplied, `getEventHistory` returns a fresh array (`filter`/`slice`
allocate): the aliasing flag is off, a `push` on the result leaves the bus's
history untouched, with a filter every returned event has the filtered type,
with a limit at most `limit` events are returned, and the result is a suffix
of the (possibly filtered) history — the most recent matches.  (With both
arguments absent or falsy the internal array itself is returned; see the
counterexample.) -/
theorem c7_fresh_when_filtered (s : EventSystem) (eventType : Option String) (limit : Option Nat)
    (h : truthyStr eventType = true ∨ truthyNat limit = true) :
    (getEventHistory s eventType limit).1 = false
    ∧ (∀ ev : Event, historyAfterResultPush s eventType limit ev = s.eventHistory)
    ∧ (truthyStr eventType = true →
        ∀ e ∈ (getEventHistory s eventType limit).2, e.type = eventType.getD "")
    ∧ (truthyNat limit = true →
        (getEventHistory s eventType limit).2.length ≤ limit.getD 0)
    ∧ ((getEventHistory s eventType limit).2 <:+
        (if truthyStr eventType = true then
          s.eventHistory.filter (fun e => e.type == eventType.getD "")
        else s.eventHistory)) := by
  have hflag : (getEventHistory s eventType limit).1 = false := by
    unfold getEventHistory
    rcases h with h1 | h1 <;> simp [h1]
  refine ⟨hflag, ?_, ?_, ?_, ?_⟩
  · intro ev
    unfold historyAfterResultPush
    rw [hflag]
    simp
  · intro ht e he
    unfold getEventHistory at he
    rw [ht] at he
    dsimp only at he
    rw [if_pos rfl] at he
    by_cases hl : truthyNat limit = true
    · rw [if_pos hl] at he
      have he2 := List.mem_of_mem_drop he
      have := List.mem_filter.mp he2
      simpa using this.2
    · rw [if_neg hl] at he
      have := List.mem_filter.mp he
      simpa using this.2
  · intro hl
    unfold getEventHistory
    rw [hl]
    dsimp only
    rw [if_pos rfl]
    unfold suffixN
    simp only [List.length_drop]
    omega
  · unfold getEventHistory
    dsimp only
    by_cases ht : truthyStr eventType = true
    · rw [if_pos ht]
      by_cases hl : truthyNat limit = true
      · rw [if_pos hl]
        exact List.drop_suffix _ _
      · rw [if_neg hl]
    · rw [if_neg ht]
      by_cases hl : truthyNat limit = true
      · rw [if_pos hl]
        exact List.drop_suffix _ _
      · rw [if_neg hl]

/-- Claim C7 (amended, witness): querying `c7S` with type `"A"` and limit 1
returns a fresh list (flag off, push has no effect on the bus), containing
only `"A"` events, of length at most 1, and a suffix of the filtered
history; concretely it is exactly the most recent `"A"` event, id 2. -/
theorem c7_fresh_when_filtered_witness :
    (getEventHistory c7S (some "A") (some 1)).1 = false
    ∧ historyAfterResultPush c7S (some "A") (some 1) c7Ev = c7S.eventHistory
    ∧ (getEventHistory c7S (some "A") (some 1)).2.map (fun e => e.id) = [2]
    ∧ (getEventHistory c7S (some "A") (some 1)).2.length ≤ 1 := by
  have h := c7_fresh_when_filtered c7S (some "A") (some 1) (Or.inl (by decide))
  exact ⟨h.1, h.2.1 c7Ev, by decide, h.2.2.2.1 (by decide)⟩

end EventBus
